import Mathlib

/-!
# Verification of the nexus-haul artifact migrator (`src/main.go`)

Shallow embedding of the migration pipeline's pure core.

Modelling conventions:
* Go strings are byte sequences; all strings handled by this program are
  ASCII paths/URLs, so we model a Go string as its character list
  (`GoString := List Char`).  `s[1:]` becomes dropping the head character
  and panics (models as `Option.none`) exactly when the string is empty,
  matching Go's index-out-of-range panic for `len(s) = 0`.
* The JSON `Asset` record (src/main.go lines 18-34) is modelled with the
  fields that the traversal functions actually read: `Type`, `Leaf`,
  `Path`, `PomUri`, `Children`.  The remaining fields (`NodeName`,
  `RepositoryId`, `LocallyAvailable`, `ArtifactTimestamp`, `ArtifactUri`,
  `GroupId`, `ArtifactId`, `Version`, `Extension`, `Packaing`) are never
  consulted by `hasArtifacts`, `getArtifacts`, `getGroups` or `processor`,
  so they are elided from the embedding.
* HTTP I/O is modelled by passing the response the network would deliver
  (status code plus body) as an explicit argument; a transport-level
  failure of `client.Do` is a separate constructor.
* A Go runtime panic is modelled as `Option.none` propagating out of the
  function in which it occurs.
-/

/-- A Go string, modelled as its character sequence. -/
abbrev GoString := List Char

/-- Coerce a Lean string literal to the `GoString` model. -/
def gs (s : String) : GoString := s.data

/-- The tree node delivered by the source server's tree-browsing API
(`Asset`, src/main.go:18).  Fields unused by the modelled functions are
elided (see the module docstring). -/
inductive Asset : Type where
  | mk (type : GoString) (leaf : Bool) (path : GoString) (pomUri : GoString)
       (children : List Asset) : Asset

/-- Field accessor for `Asset.Type`. -/
def Asset.type : Asset → GoString
  | .mk t _ _ _ _ => t

/-- Field accessor for `Asset.Leaf`. -/
def Asset.leaf : Asset → Bool
  | .mk _ l _ _ _ => l

/-- Field accessor for `Asset.Path`. -/
def Asset.path : Asset → GoString
  | .mk _ _ p _ _ => p

/-- Field accessor for `Asset.PomUri`. -/
def Asset.pomUri : Asset → GoString
  | .mk _ _ _ u _ => u

/-- Field accessor for `Asset.Children`. -/
def Asset.children : Asset → List Asset
  | .mk _ _ _ _ c => c

/-- Go `s[1:]` on a string: drops the first byte, and panics (modelled by
`none`) when the string is empty (`a.Path[1:]`, src/main.go:315 and 337). -/
def goSliceFrom1 : GoString → Option GoString
  | [] => none
  | _ :: rest => some rest

/-- `hasArtifacts` (src/main.go:344-354).  The Go `for` loop returns inside
its first iteration unconditionally (both branches of the `if` return), so
only the first child is ever inspected; an empty `Children` slice falls
through to `return false`. -/
def hasArtifacts : Asset → Bool
  | .mk _ _ _ _ [] => false
  | .mk _ _ _ _ (c :: _) => if c.leaf then true else hasArtifacts c

/-- The chain of first children below a node: the first child, then the
first child of the first child, and so on while children exist.  This is
the "first-child-only probe" path named by the specification. -/
def firstChain : Asset → List Asset
  | .mk _ _ _ _ [] => []
  | .mk _ _ _ _ (c :: _) => c :: firstChain c

/-- Go `strings.Replace(s, old, new, 1)`: replace the first (leftmost)
occurrence of `old` in `s` by `new`; if `old` does not occur, `s` is
returned unchanged (src/main.go:319). -/
def goReplaceFirst (s old new : GoString) : GoString :=
  match s with
  | [] => if old.isPrefixOf ([] : GoString) then new else []
  | c :: rest =>
    if old.isPrefixOf (c :: rest) then new ++ List.drop old.length (c :: rest)
    else c :: goReplaceFirst rest old new

mutual

/-- `getArtifacts` (src/main.go:311-330): walk the children of a node; a
leaf child contributes its path stripped of its first byte (plus a second
path with the first `"jar"` replaced by `"pom"` when `PomUri` is
non-empty); a non-leaf child is recursed into.  `none` models the Go
panic raised by `a.Path[1:]` on an empty path. -/
def getArtifacts : Asset → Option (List GoString)
  | .mk _ _ _ _ cs => getArtifactsFrom cs

/-- The loop body of `getArtifacts` over the `Children` slice
(src/main.go:313-327), in source order. -/
def getArtifactsFrom : List Asset → Option (List GoString)
  | [] => some []
  | a :: rest =>
    if a.leaf then
      match goSliceFrom1 a.path with
      | none => none
      | some artifactURI =>
        let here :=
          if 0 < a.pomUri.length then
            [artifactURI, goReplaceFirst artifactURI (gs "jar") (gs "pom")]
          else
            [artifactURI]
        match getArtifactsFrom rest with
        | none => none
        | some tail => some (here ++ tail)
    else
      match getArtifacts a, getArtifactsFrom rest with
      | some sub, some tail => some (sub ++ tail)
      | _, _ => none

end

/-- The loop body of `getGroups` over the `Children` slice
(src/main.go:335-339): collect `a.Path[1:]` of every child with
`Type == "G"`; `none` models the panic on an empty path. -/
def getGroupsFrom : List Asset → Option (List GoString)
  | [] => some []
  | a :: rest =>
    if a.type = gs "G" then
      match goSliceFrom1 a.path with
      | none => none
      | some p => (getGroupsFrom rest).map (fun tail => p :: tail)
    else
      getGroupsFrom rest

/-- `getGroups` (src/main.go:332-342). -/
def getGroups (asset : Asset) : Option (List GoString) :=
  getGroupsFrom asset.children

mutual

/-- Analysis helper: the leaf children encountered by `getArtifacts`'s
walk of a node, in visiting order.  (Children *of* a leaf are not
visited, matching the walk.) -/
def walkLeaves : Asset → List Asset
  | .mk _ _ _ _ cs => walkLeavesFrom cs

/-- List-level companion of `walkLeaves`. -/
def walkLeavesFrom : List Asset → List Asset
  | [] => []
  | a :: rest =>
    if a.leaf then a :: walkLeavesFrom rest
    else walkLeaves a ++ walkLeavesFrom rest

end

/-- Configuration file contents (`configFile`, src/main.go:42-47). -/
structure configFile : Type where
  SourceURL : GoString
  TargetURL : GoString
  SourceDownloadURL : GoString
  Workers : Int
deriving DecidableEq

/-- Authentication file contents (`authFile`, src/main.go:49-54). -/
structure authFile : Type where
  SourceUser : GoString
  SourcePassword : GoString
  TargetUser : GoString
  TargetPassword : GoString
deriving DecidableEq

/-- Combined configuration (`confInfo`, src/main.go:56-59). -/
structure confInfo : Type where
  configFile : configFile
  authFile : authFile
deriving DecidableEq

/-- A transfer job (`AssetToStream`, src/main.go:36-40). -/
structure AssetToStream : Type where
  sourceURL : GoString
  targetURL : GoString
  contentType : GoString
deriving DecidableEq

/-- The transfer job the `processor` builds for one collected artifact
path (the loop body at src/main.go:159-172): `fmt.Sprintf("%s%s", base,
artifact)` for both URLs, and a content type of `application/xml` when the
path ends in `".pom"`, `application/java-archive` otherwise. -/
def mkTransferJob (cf : configFile) (artifact : GoString) : AssetToStream :=
  { sourceURL := cf.SourceDownloadURL ++ artifact
    targetURL := cf.TargetURL ++ artifact
    contentType :=
      if (gs ".pom").isSuffixOf artifact then gs "application/xml"
      else gs "application/java-archive" }

/-- What one `processor` iteration emits for one consumed `Asset`. -/
structure ProcessorOutput : Type where
  /-- Listing URLs sent back into `downloadCh` (src/main.go:179). -/
  fetchRequests : List GoString
  /-- Transfer jobs sent into `streamCh` (src/main.go:172). -/
  transferJobs : List AssetToStream
deriving DecidableEq

/-- One iteration of `processor` (src/main.go:151-184) on a dequeued
`Asset`: the artifacts branch turns each collected path into a
`TransferJob`; the groups branch turns each group path into a fetch
request `SourceURL ++ path`.  `none` models a panic inside
`getArtifacts`/`getGroups`. -/
def processAsset (cf : configFile) (asset : Asset) : Option ProcessorOutput :=
  if hasArtifacts asset then
    match getArtifacts asset with
    | none => none
    | some artifacts =>
      some { fetchRequests := []
             transferJobs := artifacts.map (mkTransferJob cf) }
  else
    match getGroups asset with
    | none => none
    | some groups =>
      some { fetchRequests := groups.map (fun g => cf.SourceURL ++ g)
             transferJobs := [] }

/-- An HTTP response as delivered by the network: status code and body. -/
structure HttpResponse : Type where
  StatusCode : Nat
  Body : GoString
deriving DecidableEq

/-- Outcome of reading a response body to the end (`ioutil.ReadAll`):
either the whole body is read without error, or the read fails after `n`
bytes have already been delivered. -/
inductive BodyRead : Type where
  | ok : BodyRead
  | failAfter (n : Nat) : BodyRead
deriving DecidableEq

/-- `ioutil.ReadAll(resp.Body)` under a given read outcome: the bytes
returned and whether a read error occurred. -/
def ioReadAll (body : GoString) : BodyRead → GoString × Bool
  | .ok => (body, false)
  | .failAfter n => (body.take n, true)

/-- The error built by `fmt.Errorf("URL:[%s], StatusCode:[%d], [%s]", ...)`
on a non-success HTTP status (src/main.go:273 and 304): it carries the
URL, the status code and the response body read back. -/
structure TransportError : Type where
  url : GoString
  statusCode : Nat
  body : GoString
deriving DecidableEq

/-- An error value published to `errCh`: a transport-status error or a
lower-level network error from `http.NewRequest`/`client.Do`. -/
inductive GoError : Type where
  | transport (e : TransportError) : GoError
  | net (msg : GoString) : GoError
deriving DecidableEq

/-- Outcome of `client.Do(req)`: a delivered response, or a
transport-level error. -/
inductive DoResult : Type where
  | ok (resp : HttpResponse) : DoResult
  | netErr (msg : GoString) : DoResult
deriving DecidableEq

/-- `httpDownload` (src/main.go:251-280), given the GET response the
network delivers and the body-read outcome.  On status ≠ 200 it returns
the `TransportError`; on 200 it returns whatever `ioutil.ReadAll`
delivered — note line 277-279 return `data, nil`, discarding the read
error, so a failed read still yields a success. -/
def httpDownload (url : GoString) (resp : HttpResponse) (read : BodyRead) :
    Except TransportError GoString :=
  if resp.StatusCode ≠ 200 then
    .error { url := url, statusCode := resp.StatusCode
             body := (ioReadAll resp.Body read).1 }
  else
    .ok (ioReadAll resp.Body read).1

/-- What one `downloader` iteration (src/main.go:236-249) emits for one
dequeued URL: errors published to `errCh`, and bodies forwarded to
`unmarshalCh`. -/
structure DownloaderStep : Type where
  published : List TransportError
  forwarded : List GoString
deriving DecidableEq

/-- One `downloader` iteration on a URL, given the network's GET response
and the body-read outcome: a single, unretried fetch whose error (if any)
goes to the failure sink and whose data (if any) goes downstream. -/
def downloaderStep (url : GoString) (resp : HttpResponse) (read : BodyRead) :
    DownloaderStep :=
  match httpDownload url resp read with
  | .error e => { published := [e], forwarded := [] }
  | .ok data => { published := [], forwarded := [data] }

/-- `httpUpload` (src/main.go:282-309), given the PUT outcome the network
delivers: a network error is returned as-is; a response with status ≠ 201
yields the `TransportError`; a 201 yields no error. -/
def httpUpload (url : GoString) (putResult : DoResult) : Option GoError :=
  match putResult with
  | .netErr m => some (.net m)
  | .ok resp =>
    if resp.StatusCode ≠ 201 then
      some (.transport { url := url, statusCode := resp.StatusCode, body := resp.Body })
    else
      none

/-- Observable effects of one `streamer` iteration (src/main.go:186-217)
on one transfer job. -/
structure StreamerEffects : Type where
  /-- Whether the PUT to the target was issued at all. -/
  putIssued : Bool
  /-- The bytes streamed to the target as the PUT request body (the GET
  response body, whatever its status), when the PUT was issued. -/
  putBody : Option GoString
  /-- Errors published to `errCh`. -/
  published : List GoError
deriving DecidableEq

/-- One `streamer` iteration on a job, given the network outcomes of its
GET and PUT.  Note the source: after `client.Do` succeeds the response's
status code is never inspected — `httpUpload` is called with `resp.Body`
unconditionally (src/main.go:202-209). -/
def streamerStep (job : AssetToStream) (getResult putResult : DoResult) :
    StreamerEffects :=
  match getResult with
  | .netErr m => { putIssued := false, putBody := none, published := [.net m] }
  | .ok resp =>
    match httpUpload job.targetURL putResult with
    | some e => { putIssued := true, putBody := some resp.Body, published := [e] }
    | none => { putIssued := true, putBody := some resp.Body, published := [] }

/-- Events observable while the `streamer` loop runs. -/
inductive StreamerEvent : Type where
  | getIssued (url : GoString) : StreamerEvent
  | getBodyClosed (url : GoString) : StreamerEvent
  | putIssued (url : GoString) : StreamerEvent
  | putBodyClosed (url : GoString) : StreamerEvent
  | errPublished (e : GoError) : StreamerEvent
deriving DecidableEq

/-- The events of one `streamer` iteration (src/main.go:189-213), split
into (executed now, deferred to `streamer`'s return).  `httpUpload`
registers `defer resp.Body.Close()` *inside its own function*
(src/main.go:299), so the PUT body close executes when `httpUpload`
returns, i.e. still within the iteration; but the GET body close is
`defer`red in `streamer` itself (src/main.go:208), so it is only pushed
onto `streamer`'s defer stack, to run when `streamer` returns. -/
def streamerJobEvents (job : AssetToStream) (getResult putResult : DoResult) :
    List StreamerEvent × List StreamerEvent :=
  match getResult with
  | .netErr m => ([.errPublished (.net m)], [])
  | .ok _ =>
    let put : List StreamerEvent :=
      match putResult with
      | .netErr _ => [.putIssued job.targetURL]
      | .ok _ => [.putIssued job.targetURL, .putBodyClosed job.targetURL]
    let errs : List StreamerEvent :=
      match httpUpload job.targetURL putResult with
      | some e => [.errPublished e]
      | none => []
    (.getIssued job.sourceURL :: (put ++ errs), [.getBodyClosed job.sourceURL])

/-- The trace of `streamer` (src/main.go:186-217) processing a finite
prefix of its job stream, with the network's outcome for each job given
by `env`.  First component: events executed during those iterations.
Second component: the body closes accumulated on the defer stack — the
`for` loop has no exit path, so `streamer` never returns and these
deferred closes never execute. -/
def streamerTrace (env : AssetToStream → DoResult × DoResult) :
    List AssetToStream → List StreamerEvent × List StreamerEvent
  | [] => ([], [])
  | job :: rest =>
    let r := env job
    let this := streamerJobEvents job r.1 r.2
    let later := streamerTrace env rest
    (this.1 ++ later.1, this.2 ++ later.2)

/-- Selector for GET-body close events, used to state that none occur. -/
def isGetBodyClose : StreamerEvent → Bool
  | .getBodyClosed _ => true
  | _ => false

/-- Outcome of reading-then-parsing one JSON file at startup
(`readFile` + `json.Unmarshal`, src/main.go:115-133): the read can fail
(missing file), the parse can fail (malformed JSON), or a value is
produced. -/
inductive FileOutcome (α : Type) : Type where
  | readError (msg : GoString) : FileOutcome α
  | parseError (msg : GoString) : FileOutcome α
  | parsed (value : α) : FileOutcome α

/-- `processConfigAndAuthFiles` (src/main.go:111-141): reads and parses
the config file, then the auth file, returning the first error met;
only on full success is `ci` assigned. -/
def processConfigAndAuthFiles (conf : FileOutcome configFile)
    (auth : FileOutcome authFile) : Except GoString confInfo :=
  match conf with
  | .readError m => .error m
  | .parseError m => .error m
  | .parsed cf =>
    match auth with
    | .readError m => .error m
    | .parseError m => .error m
    | .parsed af => .ok { configFile := cf, authFile := af }

/-- The zero value of `configFile` (Go zero value of the struct). -/
def configFileZero : configFile :=
  { SourceURL := [], TargetURL := [], SourceDownloadURL := [], Workers := 0 }

/-- The zero value of `authFile`. -/
def authFileZero : authFile :=
  { SourceUser := [], SourcePassword := [], TargetUser := [], TargetPassword := [] }

/-- The zero value of `confInfo` — the value the package-level `ci`
(src/main.go:66) holds when `processConfigAndAuthFiles` returned early. -/
def confInfoZero : confInfo :=
  { configFile := configFileZero, authFile := authFileZero }

/-- The number of iterations of the worker-spawn loop
(src/main.go:88-97): decrement `workers` until it is below 1, spawning
one goroutine per stage each iteration. -/
def spawnIterations (workers : Int) : Nat :=
  if workers < 1 then 0 else spawnIterations (workers - 1) + 1
termination_by workers.toNat
decreasing_by omega

/-- What `main` (src/main.go:74-109) observably does at startup. -/
structure PipelineStartup : Type where
  /-- Whether control reaches the worker-spawn loop and the seed send. -/
  pipelineStarted : Bool
  /-- Iterations of the spawn loop (each starts one goroutine per stage). -/
  workersSpawnedPerStage : Nat
  /-- The URL seeded into `downloadCh` (src/main.go:100). -/
  seedURL : GoString
deriving DecidableEq

/-- Startup behaviour of `main` given the fate of the two files.  The
source calls `processConfigAndAuthFiles()` as a bare statement
(src/main.go:78), DISCARDING its error result; after an early
error-return the package-level `ci` still holds its zero value, and
`main` proceeds unconditionally to spawn workers, seed `downloadCh` with
`ci.configFile.SourceURL` and enter the error-drain loop. -/
def mainStartup (conf : FileOutcome configFile) (auth : FileOutcome authFile) :
    PipelineStartup :=
  let ci : confInfo :=
    match processConfigAndAuthFiles conf auth with
    | .error _ => confInfoZero
    | .ok v => v
  { pipelineStarted := true
    workersSpawnedPerStage := spawnIterations ci.configFile.Workers
    seedURL := ci.configFile.SourceURL }

/-- Strong induction over `Asset`: to prove a property of every node it
suffices to prove it for a node assuming it for all of its children. -/
def Asset.strongInd {motive : Asset → Prop}
    (ind : ∀ t l p u cs, (∀ c ∈ cs, motive c) → motive (Asset.mk t l p u cs)) :
    ∀ a, motive a
  | .mk t l p u cs => ind t l p u cs (fun c hc => Asset.strongInd ind c)
termination_by a => sizeOf a
decreasing_by
  simp only [Asset.mk.sizeOf_spec]
  have := List.sizeOf_lt_of_mem hc
  omega

/-- The specification's "artifact path with the leading path separator
stripped": remove a leading `/` when there is one.  (Comparison
definition for the refinement claim about `getArtifacts`; the source
itself strips the first byte unconditionally.) -/
def specStripLeadingSep (p : GoString) : GoString :=
  match p with
  | '/' :: rest => rest
  | other => other

/-- The specification's paths contributed by one leaf: its stripped
artifact path, plus — when the leaf carries companion-metadata presence
(non-empty `pomUri`) — the path with the first occurrence of the
artifact suffix token replaced by the descriptor suffix token. -/
def specLeafPaths (c : Asset) : List GoString :=
  let p := specStripLeadingSep c.path
  if c.pomUri = [] then [p]
  else [p, goReplaceFirst p (gs "jar") (gs "pom")]

/-- A concrete leaf node used to instantiate the hypotheses of the
universally quantified theorems. -/
def leafW : Asset :=
  Asset.mk (gs "A") true (gs "/releases/lib-1.0.jar") (gs "http://pom.uri") []

/-- A concrete group node (one leaf child) for the same purpose. -/
def groupW : Asset :=
  Asset.mk (gs "G") false (gs "/releases") [] [leafW]

/-- A concrete root node (one group child) for the same purpose. -/
def rootW : Asset :=
  Asset.mk (gs "G") false (gs "/") [] [groupW]

/-- A concrete group-only node (its single child is a group with no
children), so that `hasArtifacts` is false. -/
def branchW : Asset :=
  Asset.mk (gs "G") false (gs "/") []
    [Asset.mk (gs "G") false (gs "/releases") [] []]

/-- A concrete configuration for the same purpose. -/
def cfW : configFile :=
  { SourceURL := gs "http://source/service/local/repositories/releases/index_content"
    TargetURL := gs "http://target/repository/releases/"
    SourceDownloadURL := gs "http://source/content/repositories/releases/"
    Workers := 4 }

/-- C7: for every listing-URL, the Fetcher fails with a `TransportError`
carrying the URL, the status code and the response body exactly when the
HTTP status is other than 200 (publishing it to the failure sink, with no
retry — the single iteration emits at most this one error), and on a 200
response forwards the full response body downstream. -/
theorem downloader_non200_exactly (url : GoString) (resp : HttpResponse) :
    downloaderStep url resp .ok =
      if resp.StatusCode = 200 then
        { published := [], forwarded := [resp.Body] }
      else
        { published := [{ url := url, statusCode := resp.StatusCode, body := resp.Body }]
          forwarded := [] } := by
  by_cases h : resp.StatusCode = 200 <;>
    simp [downloaderStep, httpDownload, ioReadAll, h]

/-- C10: when reading a 200 listing body fails after `n` bytes,
`httpDownload` discards the read error and returns the truncated bytes
with a nil error, so the `downloader` forwards the truncated body to the
Decoder as a success and publishes nothing to the failure sink. -/
theorem httpDownload_discards_read_error (url body : GoString) (n : Nat) :
    (ioReadAll body (.failAfter n)).2 = true ∧
    httpDownload url { StatusCode := 200, Body := body } (.failAfter n) =
      .ok (body.take n) ∧
    downloaderStep url { StatusCode := 200, Body := body } (.failAfter n) =
      { published := [], forwarded := [body.take n] } := by
  refine ⟨rfl, ?_, ?_⟩ <;> simp [downloaderStep, httpDownload, ioReadAll]

/-- C1 is FALSE of the code: `streamer` never inspects the GET status
(src/main.go:202-209).  At a job whose source GET returns 404 (body the
error page) and whose target PUT returns 201, the PUT is issued — with
the 404 page as its body — and nothing reaches the failure sink. -/
theorem streamer_404_still_contacts_target :
    streamerStep
      { sourceURL := gs "http://source/repo/a.jar"
        targetURL := gs "http://target/repo/a.jar"
        contentType := gs "application/java-archive" }
      (.ok { StatusCode := 404, Body := gs "404 Not Found" })
      (.ok { StatusCode := 201, Body := [] }) =
      { putIssued := true
        putBody := some (gs "404 Not Found")
        published := [] } := by
  decide

/-- C2 is FALSE of the code: `main` discards the error returned by
`processConfigAndAuthFiles` (src/main.go:78).  With the config file
missing, the call does return an error, yet startup proceeds and the
pipeline is started with the zero-valued configuration (0 workers,
empty seed URL). -/
theorem main_starts_pipeline_despite_config_error :
    processConfigAndAuthFiles
        (.readError (gs "open ./migrator-conf.json: no such file or directory"))
        (.parsed authFileZero) =
      .error (gs "open ./migrator-conf.json: no such file or directory") ∧
    mainStartup
        (.readError (gs "open ./migrator-conf.json: no such file or directory"))
        (.parsed authFileZero) =
      { pipelineStarted := true, workersSpawnedPerStage := 0, seedURL := [] } := by
  refine ⟨rfl, ?_⟩
  simp [mainStartup, processConfigAndAuthFiles, confInfoZero, configFileZero,
    spawnIterations]

/-- Helper for the resource-release analysis: no iteration of `streamer`
executes a close of the GET response body (the close is only deferred). -/
theorem jobEvents_no_get_close (job : AssetToStream) (g p : DoResult) :
    (streamerJobEvents job g p).1.filter isGetBodyClose = [] := by
  cases g with
  | netErr m => simp [streamerJobEvents, isGetBodyClose]
  | ok resp =>
    cases p with
    | netErr m => simp [streamerJobEvents, httpUpload, isGetBodyClose]
    | ok presp =>
      by_cases h : presp.StatusCode = 201 <;>
        simp [streamerJobEvents, httpUpload, h, isGetBodyClose]

/-- C8 is FALSE of the code: the GET body close is `defer`red inside
`streamer`'s endless `for` loop (src/main.go:208), so it only
accumulates on the defer stack and never executes before the next job —
whatever jobs are processed and whatever the network answers, the
executed trace contains not a single GET-body close event. -/
theorem streamer_never_closes_get_body
    (env : AssetToStream → DoResult × DoResult)
    (jobs : List AssetToStream) :
    (streamerTrace env jobs).1.filter isGetBodyClose = [] := by
  induction jobs with
  | nil => simp [streamerTrace]
  | cons job rest ih =>
    simp only [streamerTrace, List.filter_append]
    rw [jobEvents_no_get_close, ih]
    simp

/-- C4: `hasArtifacts` is exactly the first-child-only probe — it returns
true iff descending through the first child at each level reaches a leaf,
and a node with zero children yields false. -/
theorem hasArtifacts_first_child_probe (a : Asset) :
    (hasArtifacts a = true ↔ ∃ b ∈ firstChain a, b.leaf = true) ∧
    (a.children = [] → hasArtifacts a = false) := by
  induction a using Asset.strongInd with
  | ind t l p u cs ih =>
    cases cs with
    | nil => simp [hasArtifacts, firstChain]
    | cons c rest =>
      refine ⟨?_, by simp [Asset.children]⟩
      by_cases hl : c.leaf
      · simp [hasArtifacts, firstChain, hl]
      · have hc := (ih c (by simp)).1
        simp only [hasArtifacts, firstChain, hl, if_false, Bool.false_eq_true]
        rw [hc]
        constructor
        · rintro ⟨b, hb, hbl⟩
          exact ⟨b, by simp [hb], hbl⟩
        · rintro ⟨b, hb, hbl⟩
          rcases List.mem_cons.mp hb with rfl | hb
          · simp [hl] at hbl
          · exact ⟨b, hb, hbl⟩

/-- Witness for C4 at a concrete childless node. -/
theorem hasArtifacts_first_child_probe_w :
    hasArtifacts (Asset.mk (gs "G") false (gs "/releases") [] []) = false :=
  (hasArtifacts_first_child_probe (Asset.mk (gs "G") false (gs "/releases") [] [])).2 rfl

/-- Core lemma for the `getArtifacts` characterisation: the list-level
walk agrees with the per-leaf description, given the characterisation for
every child and `/`-prefixed paths for every visited leaf. -/
theorem getArtifactsFrom_eq (cs : List Asset)
    (IH : ∀ c ∈ cs, (∀ d ∈ walkLeaves c, ∃ r, d.path = '/' :: r) →
          getArtifacts c = some ((walkLeaves c).flatMap specLeafPaths))
    (h : ∀ c ∈ walkLeavesFrom cs, ∃ r, c.path = '/' :: r) :
    getArtifactsFrom cs = some ((walkLeavesFrom cs).flatMap specLeafPaths) := by
  induction cs with
  | nil => simp [getArtifactsFrom, walkLeavesFrom]
  | cons c rest ihl =>
    have hrest : getArtifactsFrom rest =
        some ((walkLeavesFrom rest).flatMap specLeafPaths) := by
      apply ihl
      · intro d hd hdh
        exact IH d (by simp [hd]) hdh
      · intro d hd
        apply h d
        by_cases hl : c.leaf <;> simp [walkLeavesFrom, hl, hd]
    by_cases hl : c.leaf
    · obtain ⟨r, hr⟩ := h c (by simp [walkLeavesFrom, hl])
      by_cases hp : c.pomUri = []
      · simp [getArtifactsFrom, walkLeavesFrom, hl, hr, goSliceFrom1, hrest,
          specLeafPaths, specStripLeadingSep, hp]
      · have hlen : 0 < c.pomUri.length := List.length_pos.mpr hp
        simp [getArtifactsFrom, walkLeavesFrom, hl, hr, goSliceFrom1, hrest,
          specLeafPaths, specStripLeadingSep, hp, hlen]
    · have hsub : getArtifacts c = some ((walkLeaves c).flatMap specLeafPaths) := by
        apply IH c (by simp)
        intro d hd
        exact h d (by simp [walkLeavesFrom, hl, hd])
      simp [getArtifactsFrom, walkLeavesFrom, hl, hsub, hrest]

/-- C3: whenever every visited leaf's path begins with the path
separator, `getArtifacts` returns, for each leaf child of the walk in
order, its path with the leading separator stripped, plus — for a leaf
with non-empty `pomUri` — one additional path with the first occurrence
of `"jar"` replaced by `"pom"`; hence each leaf contributes exactly one
path, plus one more exactly when it carries companion metadata. -/
theorem getArtifacts_per_leaf (a : Asset)
    (h : ∀ c ∈ walkLeaves a, ∃ r, c.path = '/' :: r) :
    getArtifacts a = some ((walkLeaves a).flatMap specLeafPaths) ∧
    ((walkLeaves a).flatMap specLeafPaths).length =
      (walkLeaves a).length +
        ((walkLeaves a).filter (fun c => !c.pomUri.isEmpty)).length := by
  have main : ∀ b, (∀ c ∈ walkLeaves b, ∃ r, c.path = '/' :: r) →
      getArtifacts b = some ((walkLeaves b).flatMap specLeafPaths) := by
    intro b
    induction b using Asset.strongInd with
    | ind t l p u cs ih =>
      intro hb
      have := getArtifactsFrom_eq cs ih (by simpa [walkLeaves] using hb)
      simpa [getArtifacts, walkLeaves] using this
  refine ⟨main a h, ?_⟩
  have len : ∀ L : List Asset, (L.flatMap specLeafPaths).length =
      L.length + (L.filter (fun c => !c.pomUri.isEmpty)).length := by
    intro L
    induction L with
    | nil => simp
    | cons c rest ihl =>
      by_cases hp : c.pomUri = []
      · simp [specLeafPaths, hp, ihl]
        omega
      · rcases hq : c.pomUri with _ | ⟨x, xs⟩
        · exact absurd hq hp
        · simp [specLeafPaths, hp, ihl, hq]
          omega
  exact len _

/-- Witness for C3 at the concrete tree `rootW` (one group, one leaf with
companion metadata). -/
theorem getArtifacts_per_leaf_w :
    getArtifacts rootW = some ((walkLeaves rootW).flatMap specLeafPaths) ∧
    ((walkLeaves rootW).flatMap specLeafPaths).length =
      (walkLeaves rootW).length +
        ((walkLeaves rootW).filter (fun c => !c.pomUri.isEmpty)).length :=
  getArtifacts_per_leaf rootW (by
    intro c hc
    simp [rootW, groupW, leafW, walkLeaves, walkLeavesFrom, Asset.leaf, gs] at hc
    subst hc
    exact ⟨gs "releases/lib-1.0.jar", rfl⟩)

/-- Helper: if some visited leaf has an empty path, the whole
`getArtifactsFrom` walk panics (list level, children characterisation
assumed). -/
theorem getArtifactsFrom_panic (cs : List Asset)
    (IH : ∀ c ∈ cs, (∃ d ∈ walkLeaves c, d.path = []) → getArtifacts c = none)
    (h : ∃ c ∈ walkLeavesFrom cs, c.path = []) :
    getArtifactsFrom cs = none := by
  induction cs with
  | nil => simp [walkLeavesFrom] at h
  | cons c rest ihl =>
    rcases h with ⟨d, hd, hdp⟩
    by_cases hl : c.leaf
    · simp [walkLeavesFrom, hl] at hd
      rcases hd with rfl | hd
      · simp [getArtifactsFrom, hl, hdp, goSliceFrom1]
      · have hr : getArtifactsFrom rest = none :=
          ihl (fun e he hep => IH e (by simp [he]) hep) ⟨d, hd, hdp⟩
        rcases hcp2 : c.path with _ | ⟨y, ys⟩ <;>
          simp [getArtifactsFrom, hl, goSliceFrom1, hr, hcp2]
    · simp [walkLeavesFrom, hl] at hd
      rcases hd with hd | hd
      · have hc : getArtifacts c = none := IH c (by simp) ⟨d, hd, hdp⟩
        simp [getArtifactsFrom, hl, hc]
      · have hr : getArtifactsFrom rest = none :=
          ihl (fun e he hep => IH e (by simp [he]) hep) ⟨d, hd, hdp⟩
        rcases hg : getArtifacts c with _ | sub <;>
          simp [getArtifactsFrom, hl, hr, hg]

/-- Helper: a visited leaf with an empty path makes `getArtifacts`
panic. -/
theorem getArtifacts_panic : ∀ n : Asset,
    (∃ c ∈ walkLeaves n, c.path = []) → getArtifacts n = none := by
  intro n
  induction n using Asset.strongInd with
  | ind t l p u cs ih =>
    intro hn
    have : getArtifactsFrom cs = none :=
      getArtifactsFrom_panic cs ih (by simpa [walkLeaves] using hn)
    simpa [getArtifacts] using this

/-- Helper: a group-typed child with an empty path makes `getGroupsFrom`
panic. -/
theorem getGroupsFrom_panic (cs : List Asset)
    (h : ∃ c ∈ cs, c.type = gs "G" ∧ c.path = []) :
    getGroupsFrom cs = none := by
  induction cs with
  | nil => simp at h
  | cons c rest ihl =>
    rcases h with ⟨d, hd, hdt, hdp⟩
    rcases List.mem_cons.mp hd with rfl | hd
    · simp [getGroupsFrom, hdt, hdp, goSliceFrom1]
    · have hr := ihl ⟨d, hd, hdt, hdp⟩
      by_cases ht : c.type = gs "G"
      · rcases hcp : c.path with _ | ⟨x, xs⟩ <;>
          simp [getGroupsFrom, ht, goSliceFrom1, hr, hcp]
      · simp [getGroupsFrom, ht, hr]

/-- C9: `getArtifacts` and `getGroups` strip the first character of a
child's path unconditionally — whatever that character is — and for a
leaf child (respectively group-typed child) whose path is the empty
string, the operation panics (modelled `none`) rather than returning the
path unchanged or an error. -/
theorem strip_unconditional_empty_panics :
    (∀ (n c : Asset) (ch : Char) (r : GoString),
        n.children = [c] → c.leaf = true → c.path = ch :: r → c.pomUri = [] →
        getArtifacts n = some [r]) ∧
    (∀ (n c : Asset) (ch : Char) (r : GoString),
        n.children = [c] → c.type = gs "G" → c.path = ch :: r →
        getGroups n = some [r]) ∧
    (∀ n : Asset, (∃ c ∈ walkLeaves n, c.leaf = true ∧ c.path = []) →
        getArtifacts n = none) ∧
    (∀ n : Asset, (∃ c ∈ n.children, c.type = gs "G" ∧ c.path = []) →
        getGroups n = none) := by
  refine ⟨?_, ?_, ?_, ?_⟩
  · intro n c ch r h1 h2 h3 h4
    cases n with
    | mk t l p u cs =>
      simp [Asset.children] at h1
      subst h1
      simp [getArtifacts, getArtifactsFrom, h2, h3, h4, goSliceFrom1]
  · intro n c ch r h1 h2 h3
    cases n with
    | mk t l p u cs =>
      simp [Asset.children] at h1
      subst h1
      simp [getGroups, getGroupsFrom, Asset.children, h2, h3, goSliceFrom1]
  · intro n hn
    rcases hn with ⟨c, hc, _, hcp⟩
    exact getArtifacts_panic n ⟨c, hc, hcp⟩
  · intro n hn
    cases n with
    | mk t l p u cs =>
      have := getGroupsFrom_panic cs (by simpa [Asset.children] using hn)
      simpa [getGroups, Asset.children] using this

/-- Witness for C9: the stripped character need not be a separator — a
leaf path starting with `x` loses the `x`. -/
theorem strip_unconditional_empty_panics_w :
    getArtifacts
      (Asset.mk (gs "G") false (gs "/") []
        [Asset.mk (gs "A") true ('x' :: gs "releases/a.jar") [] []]) =
      some [gs "releases/a.jar"] :=
  strip_unconditional_empty_panics.1
    (Asset.mk (gs "G") false (gs "/") []
      [Asset.mk (gs "A") true ('x' :: gs "releases/a.jar") [] []])
    (Asset.mk (gs "A") true ('x' :: gs "releases/a.jar") [] [])
    'x' (gs "releases/a.jar") rfl rfl rfl rfl

/-- Helper: when no group-typed child has an empty path, `getGroupsFrom`
returns exactly the first-byte-stripped paths of the group-typed
children, in order. -/
theorem getGroupsFrom_eq (cs : List Asset)
    (h : ∀ c ∈ cs, c.type = gs "G" → c.path ≠ []) :
    getGroupsFrom cs =
      some ((cs.filter (fun c => decide (c.type = gs "G"))).map
        (fun c => c.path.drop 1)) := by
  induction cs with
  | nil => simp [getGroupsFrom]
  | cons c rest ihl =>
    have hrest := ihl (fun d hd => h d (by simp [hd]))
    by_cases ht : c.type = gs "G"
    · have hp := h c (by simp) ht
      rcases hcp : c.path with _ | ⟨x, xs⟩
      · exact absurd hcp hp
      · simp [getGroupsFrom, ht, hcp, goSliceFrom1, hrest]
    · simp [getGroupsFrom, ht, hrest]

/-- C5: for a node without artifacts, the Planner emits exactly one fetch
request per direct child with `Type = "G"` — the child's (stripped) path
appended to the source-listing base URL — and no transfer jobs; a node
with empty children yields no fetch requests and no transfer jobs. -/
theorem planner_group_fanout (cf : configFile) (a : Asset)
    (hna : hasArtifacts a = false)
    (hok : ∀ c ∈ a.children, c.type = gs "G" → c.path ≠ []) :
    processAsset cf a =
      some { fetchRequests :=
               (a.children.filter (fun c => decide (c.type = gs "G"))).map
                 (fun c => cf.SourceURL ++ c.path.drop 1)
             transferJobs := [] } ∧
    (a.children = [] →
      processAsset cf a = some { fetchRequests := [], transferJobs := [] }) := by
  have hg := getGroupsFrom_eq a.children hok
  constructor
  · simp [processAsset, hna, getGroups, hg, List.map_map]
  · intro hc
    simp [processAsset, hna, getGroups, hc, getGroupsFrom]

/-- Witness for C5 at the concrete group-only node `branchW`. -/
theorem planner_group_fanout_w :
    processAsset cfW branchW =
      some { fetchRequests :=
               (branchW.children.filter (fun c => decide (c.type = gs "G"))).map
                 (fun c => cfW.SourceURL ++ c.path.drop 1)
             transferJobs := [] } :=
  (planner_group_fanout cfW branchW rfl
    (by
      intro c hc ht
      simp [branchW, Asset.children] at hc
      subst hc
      decide)).1

/-- C6: for every collected artifact path the Planner builds exactly one
`TransferJob` with `sourceURL` = download base + path and `targetURL` =
target base + path, and the content type depends only on the path's
suffix: a path ending in `".pom"` yields `application/xml`, every other
path yields `application/java-archive`. -/
theorem planner_job_construction (cf : configFile) (a : Asset)
    (paths : List GoString)
    (ha : hasArtifacts a = true) (hp : getArtifacts a = some paths) :
    processAsset cf a =
      some { fetchRequests := [], transferJobs := paths.map (mkTransferJob cf) } ∧
    (∀ p, (mkTransferJob cf p).sourceURL = cf.SourceDownloadURL ++ p ∧
          (mkTransferJob cf p).targetURL = cf.TargetURL ++ p) ∧
    (∀ p, ((mkTransferJob cf p).contentType = gs "application/xml" ↔
            ∃ q, q ++ gs ".pom" = p) ∧
          ((¬ ∃ q, q ++ gs ".pom" = p) →
            (mkTransferJob cf p).contentType = gs "application/java-archive")) := by
  refine ⟨by simp [processAsset, ha, hp], fun p => ⟨rfl, rfl⟩, fun p => ?_⟩
  by_cases hs : (gs ".pom").isSuffixOf p
  · have hsx : ∃ q, q ++ gs ".pom" = p := List.isSuffixOf_iff_suffix.mp hs
    refine ⟨?_, fun hn => absurd hsx hn⟩
    simp [mkTransferJob, hs]
    exact hsx
  · have hsx : ¬ ∃ q, q ++ gs ".pom" = p :=
      fun hx => hs (List.isSuffixOf_iff_suffix.mpr hx)
    refine ⟨?_, fun _ => by simp [mkTransferJob, hs]⟩
    simp only [mkTransferJob, hs, if_false]
    exact iff_of_false (by decide) hsx

/-- Witness for C6 at the concrete tree `rootW`: two jobs, one per
collected path (`.jar` and the derived `.pom`). -/
theorem planner_job_construction_w :
    processAsset cfW rootW =
      some { fetchRequests := []
             transferJobs :=
               [mkTransferJob cfW (gs "releases/lib-1.0.jar"),
                mkTransferJob cfW (gs "releases/lib-1.0.pom")] } :=
  (planner_job_construction cfW rootW
    [gs "releases/lib-1.0.jar", gs "releases/lib-1.0.pom"] rfl rfl).1
